import Mathlib

/-!
Verification of the ckb daemon's main loop, shutdown sequence and the
pinwheel effect plug-in, shallowly embedded from `src/ckb-daemon/main.c`
and `src/ckb-pinwheel/main.c`.

The daemon's tick loop (`main`, lines 222-270) is modelled as a pure
function from the device table, the `v120` flag and an oracle describing
the outcomes of the external USB calls (`usbdequeue`, `usb_tryreset`) to
the new state together with a trace of the externally visible actions
(lock operations, USB calls, command applications).  The shutdown
sequence `quit` and the signal handlers are modelled the same way.
-/

namespace Ckb

/-- One slot of the `keyboard` table (`usbdevice`).  `connected` abstracts
the `IS_CONNECTED` test (a live USB handle), `infifo` whether the inbound
command FIFO is open, and `hasLines` whether a complete newline-terminated
command line is currently available on that FIFO (the data `readlines`
would return). -/
structure Device where
  connected : Bool
  fwversion : Nat
  queuecount : Nat
  infifo : Bool
  hasLines : Bool
deriving DecidableEq, Repr

/-- Externally visible actions of one tick of the main loop, in program
order. -/
inductive Ev where
  | lockList
  | unlockList
  | lockDev (i : Nat)
  | unlockDev (i : Nat)
  | usbdequeue (i : Nat)
  | usb_tryreset (i : Nat)
  | closeusb (i : Nat)
  | readcmd (i : Nat)
  | updateindicators (i : Nat)
deriving DecidableEq, Repr

/-- Outcomes of the external USB calls during one tick: `deqZero i` holds
when `usbdequeue(keyboard + i)` returns 0 (send failure), `resetFail i`
when `usb_tryreset(keyboard + i)` returns nonzero (reset failure), and
`queueAfter i` is the device's `queuecount` right after its `usbdequeue`
call.  Each device is dequeued at most once per tick, so per-tick
functions of the index suffice. -/
structure Oracle where
  deqZero : Nat → Bool
  resetFail : Nat → Bool
  queueAfter : Nat → Nat

/-- Pointwise update of the device table. -/
def upd (kb : Nat → Device) (i : Nat) (d : Device) : Nat → Device :=
  fun j => if j = i then d else kb j

/-- Modelled from the spec: `closeusb` (defined outside the excerpted
sources) releases the device's USB handle and marks the slot `Empty`,
fully resetting its fields before reuse, so in particular its `connected`
flag becomes false. -/
def closedDev : Device :=
  { connected := false, fwversion := 0, queuecount := 0, infifo := false, hasLines := false }

/-- One step of the inner FIFO loop (`main.c` lines 242-250) for index
`j`: if the FIFO is open, any complete lines are read and applied
(`readlines`/`readcmd`, modelled from the spec as consuming the available
complete lines exactly once), and the `v120` flag is latched when the
device reports firmware version `>= 0x0120`. -/
def fifoStep (st : (Nat → Device) × Bool) (j : Nat) : ((Nat → Device) × Bool) × List Ev :=
  let kb := st.1
  let d := kb j
  if d.infifo then
    (((if d.hasLines then upd kb j { d with hasLines := false } else kb),
      st.2 || decide (0x0120 ≤ d.fwversion)),
     if d.hasLines then [Ev.readcmd j] else [])
  else (st, [])

/-- The inner FIFO loop over a list of indices (the code iterates over
`0 .. DEV_MAX-1`). -/
def fifoSweep : List Nat → ((Nat → Device) × Bool) → ((Nat → Device) × Bool) × List Ev
  | [], st => (st, [])
  | j :: js, st =>
    let r1 := fifoStep st j
    let r2 := fifoSweep js r1.1
    (r2.1, r1.2 ++ r2.2)

/-- The state of device `i` right after its `usbdequeue` call: only its
`queuecount` has changed, to the value the oracle reports. -/
def postDeq (O : Oracle) (i : Nat) (d : Device) : Device :=
  { d with queuecount := O.queueAfter i }

/-- Processing of one device slot in the tick's sweep (`main.c` lines
233-257): if connected, its lock is taken and `usbdequeue` is called; on
send failure (`== 0`) `usb_tryreset` is called, and if that also fails
the device is closed (note: without unlocking its mutex).  Otherwise, if
its queue is now empty, all FIFOs are processed and the indicators are
updated, and the device's lock is released. -/
def devStep (O : Oracle) (devmax : Nat) (st : (Nat → Device) × Bool) (i : Nat) :
    ((Nat → Device) × Bool) × List Ev :=
  let kb := st.1
  let d := kb i
  if d.connected then
    let d1 := postDeq O i d
    let kb1 := upd kb i d1
    if O.deqZero i && O.resetFail i then
      ((upd kb1 i closedDev, st.2),
       [Ev.lockDev i, Ev.usbdequeue i, Ev.usb_tryreset i, Ev.closeusb i])
    else
      let pre := [Ev.lockDev i, Ev.usbdequeue i] ++
        (if O.deqZero i then [Ev.usb_tryreset i] else [])
      if d1.queuecount = 0 then
        let r := fifoSweep (List.range devmax) (kb1, st.2)
        (r.1, pre ++ r.2 ++ [Ev.updateindicators i, Ev.unlockDev i])
      else
        ((kb1, st.2), pre ++ [Ev.unlockDev i])
  else (st, [])

/-- The device sweep over a list of indices (the code iterates over
`0 .. DEV_MAX-1`). -/
def sweep (O : Oracle) (devmax : Nat) :
    List Nat → ((Nat → Device) × Bool) → ((Nat → Device) × Bool) × List Ev
  | [], st => (st, [])
  | i :: is, st =>
    let r1 := devStep O devmax st i
    let r2 := sweep O devmax is r1.1
    (r2.1, r1.2 ++ r2.2)

/-- Root-controller command intake at the top of the tick (`main.c` lines
226-230): if the root FIFO is open and complete lines are available they
are read and applied. -/
def rootIntake (kb : Nat → Device) : (Nat → Device) × List Ev :=
  if (kb 0).infifo && (kb 0).hasLines then
    (upd kb 0 { kb 0 with hasLines := false }, [Ev.readcmd 0])
  else (kb, [])

/-- One tick of the main loop (`main.c` lines 222-259): lock the device
list, process the root controller's FIFO, sweep all device slots, unlock
the list.  Returns the new device table, the new `v120` flag and the
trace. -/
def tick (O : Oracle) (devmax : Nat) (kb : Nat → Device) (v120 : Bool) :
    ((Nat → Device) × Bool) × List Ev :=
  let r0 := rootIntake kb
  let r1 := sweep O devmax (List.range devmax) (r0.1, v120)
  (r1.1, Ev.lockList :: (r0.2 ++ r1.2 ++ [Ev.unlockList]))

/-- The per-tick packet multiplier (`v120 ? 12 : 5`, `main.c` line 262). -/
def multiplier (v120 : Bool) : Nat := if v120 then 12 else 5

/-! ## Timespec arithmetic (`main.c` lines 10-14, 260-269) -/

/-- A `struct timespec`. -/
structure Timespec where
  tv_sec : Int
  tv_nsec : Int
deriving DecidableEq, Repr

/-- `timespec_add` (`main.c` lines 10-14).  C's `/` and `%` on `long`
truncate toward zero, which is `Int.tdiv`/`Int.tmod`. -/
def timespec_add (t : Timespec) (nanoseconds : Int) : Timespec :=
  let ns := nanoseconds + t.tv_nsec
  { tv_sec := t.tv_sec + ns.tdiv 1000000000, tv_nsec := ns.tmod 1000000000 }

/-- Modelled from the spec: `timespec_gt` (defined outside the excerpted
sources) decides whether its first timespec is strictly later than its
second; the spec's clamp description ("if the deadline is less than 100
microseconds after the current time") fixes it as the strict
lexicographic order on (seconds, nanoseconds). -/
def timespec_gt (a b : Timespec) : Bool :=
  decide (b.tv_sec < a.tv_sec ∨ (b.tv_sec = a.tv_sec ∧ b.tv_nsec < a.tv_nsec))

/-- The absolute wake deadline computed at `main.c` lines 261-262:
`nexttime = time + 1000000000 / fps / (v120 ? 12 : 5)` with C unsigned
(truncating) division, starting from the tick's start time `t0`. -/
def nexttimeOf (fps : Nat) (v120 : Bool) (t0 : Timespec) : Timespec :=
  timespec_add t0 ((1000000000 / fps / multiplier v120 : Nat) : Int)

/-- The effective absolute sleep target (`main.c` lines 264-269): the
deadline, unless it is not strictly later than `now + 100000` ns, in
which case the loop sleeps until `now + 100000` ns instead. -/
def sleepTarget (fps : Nat) (v120 : Bool) (t0 now : Timespec) : Timespec :=
  let nexttime := nexttimeOf fps v120 t0
  let t := timespec_add now 100000
  if timespec_gt nexttime t then nexttime else t

/-- Total nanoseconds represented by a timespec. -/
def toNs (t : Timespec) : Int := t.tv_sec * 1000000000 + t.tv_nsec

/-- A well-formed timespec as produced by `clock_gettime`: the
nanoseconds field lies in `[0, 1e9)`. -/
def Timespec.wf (t : Timespec) : Prop := 0 ≤ t.tv_nsec ∧ t.tv_nsec < 1000000000

/-! ## The shutdown sequence `quit` (`main.c` lines 21-39) -/

/-- Externally visible actions of `quit`, in program order.  `unlockDev`
is never emitted by the model because `quit` contains no per-device
unlock; it exists so that its absence can be stated. -/
inductive QEv where
  | lockList
  | unlockList
  | lockDev (i : Nat)
  | unlockDev (i : Nat)
  | inputclose (i : Nat)
  | revertusb (i : Nat)
  | closeusb (i : Nat)
  | usbdeinit
deriving DecidableEq, Repr

/-- The per-device part of `quit` (`main.c` lines 25-34) over a list of
slot indices: every connected slot has its lock taken (timed), its uinput
device stopped, the keyboard reverted to stock HID mode, and its USB
handle closed. -/
def quitDevs (kb : Nat → Device) : List Nat → List QEv
  | [] => []
  | i :: is =>
    (if (kb i).connected then
      [QEv.lockDev i, QEv.inputclose i, QEv.revertusb i, QEv.closeusb i]
    else []) ++ quitDevs kb is

/-- The full action trace of `quit` (`main.c` lines 21-39): lock the list,
process slots `1 .. DEV_MAX-1`, then lock slot 0, close its handle,
deinitialize USB, and unlock the list (the only unlock in the function). -/
def quitTrace (devmax : Nat) (kb : Nat → Device) : List QEv :=
  QEv.lockList :: (quitDevs kb (List.range' 1 (devmax - 1)) ++
    [QEv.lockDev 0, QEv.closeusb 0, QEv.usbdeinit, QEv.unlockList])

/-! ## Signal handling (`main.c` lines 41-52) -/

/-- Which handler is installed for the termination signals: `armed` is
`sighandler`, `acking` is `sighandler2`. -/
inductive Handler where
  | armed
  | acking
deriving DecidableEq, Repr

/-- Actions of a signal delivery. -/
inductive SEv where
  | replaceHandlers
  | runQuit
  | exitProc
  | ackSignal
deriving DecidableEq, Repr

/-- Delivery of one termination-class signal: `sighandler` first replaces
all three handlers with `sighandler2`, then runs `quit` and exits;
`sighandler2` only prints an acknowledgement. -/
def sigDeliver : Handler → Handler × List SEv
  | Handler.armed => (Handler.acking, [SEv.replaceHandlers, SEv.runQuit, SEv.exitProc])
  | Handler.acking => (Handler.acking, [SEv.ackSignal])

/-- Delivery of `n` successive termination-class signals. -/
def sigRun : Nat → Handler → Handler × List SEv
  | 0, h => (h, [])
  | n + 1, h =>
    let r1 := sigDeliver h
    let r2 := sigRun n r1.1
    (r2.1, r1.2 ++ r2.2)

/-! ## Command-line parsing of the frame rate (`main.c` lines 111-154) -/

/-- A command-line argument as classified by the parsing loop. -/
inductive Arg where
  | fpsArg (n : Nat)
  | layoutArg
  | gidArg (n : Nat)
  | nobind
  | nonotify
  | nonroot
  | unknown
deriving DecidableEq, Repr

/-- Whether an argument is a `--fps=<uint>` flag. -/
def Arg.isFps : Arg → Bool
  | Arg.fpsArg _ => true
  | _ => false

/-- Modelled from the spec: `setfps` (defined outside the excerpted
sources) sets the target frame rate to its argument
("`--fps=<uint>` sets target frame rate"). -/
def setfps (n : Nat) : Nat := n

/-- The value of the global `fps` after the argument-parsing loop
(`main.c` lines 113-141); the global has static storage and so starts
at 0. -/
def parseFps (args : List Arg) : Nat :=
  args.foldl (fun f a => match a with | Arg.fpsArg n => setfps n | _ => f) 0

/-- The value of `fps` when the tick loop is entered: `main.c` lines
152-154 set it to 30 if it is still 0 after argument parsing. -/
def fpsAtLoopEntry (args : List Arg) : Nat :=
  let f := parseFps args
  if f = 0 then setfps 30 else f

/-! ## Concrete fixtures used to evaluate the model at specific inputs -/

/-- A connected device with v120-class firmware, an open FIFO and an
empty queue. -/
def exDevHigh : Device :=
  { connected := true, fwversion := 0x0130, queuecount := 0, infifo := true, hasLines := false }

/-- A connected device with pre-v120 firmware, an open FIFO with a
complete command line available, and a non-empty queue. -/
def exDevLines : Device :=
  { connected := true, fwversion := 0x0100, queuecount := 1, infifo := true, hasLines := true }

/-- A table with `exDevHigh` in slot 1 and every other slot empty. -/
def exKbHigh : Nat → Device := fun i => if i = 1 then exDevHigh else closedDev

/-- A table with `exDevLines` in slot 1 and every other slot empty. -/
def exKbLines : Nat → Device := fun i => if i = 1 then exDevLines else closedDev

/-- An oracle where every send succeeds and empties the queue. -/
def exOracleOk : Oracle :=
  { deqZero := fun _ => false, resetFail := fun _ => false, queueAfter := fun _ => 0 }

/-- An oracle where every send succeeds but leaves the queue non-empty. -/
def exOracleBusy : Oracle :=
  { deqZero := fun _ => false, resetFail := fun _ => false, queueAfter := fun _ => 1 }

/-- An oracle where every send fails and every reset fails. -/
def exOracleFail : Oracle :=
  { deqZero := fun _ => true, resetFail := fun _ => true, queueAfter := fun _ => 1 }

/-- A root-controller slot with an open FIFO and a complete line
available (no USB handle, so not swept as connected). -/
def exDevRoot : Device :=
  { connected := false, fwversion := 0, queuecount := 0, infifo := true, hasLines := true }

/-- A table with the root controller's FIFO readable in slot 0 and
`exDevLines` in slot 1. -/
def exKbRoot : Nat → Device :=
  fun i => if i = 0 then exDevRoot else if i = 1 then exDevLines else closedDev

/-- First tick of a three-tick run: the v120-class device in slot 1
drains its queue, so the FIFO pass runs and latches `v120`. -/
def exTick1 : ((Nat → Device) × Bool) × List Ev := tick exOracleOk 2 exKbHigh false

/-- Second tick: slot 1's send and reset both fail, so it is closed. -/
def exTick2 : ((Nat → Device) × Bool) × List Ev :=
  tick exOracleFail 2 exTick1.1.1 exTick1.1.2

/-- Third tick: no device is connected any more. -/
def exTick3 : ((Nat → Device) × Bool) × List Ev :=
  tick exOracleOk 2 exTick2.1.1 exTick2.1.2

end Ckb

namespace Pinwheel

open Real

/-!
The pinwheel effect (`src/ckb-pinwheel/main.c`), modelled over the exact
real-number semantics of its floating-point expressions.
-/

/-- Truncation toward zero, the rounding used by C's `fmod`. -/
noncomputable def itrunc (q : ℝ) : ℤ := if 0 ≤ q then ⌊q⌋ else ⌈q⌉

/-- C's `fmod(x, y)`: `x - y * trunc(x / y)`, which has the sign of the
dividend `x`. -/
noncomputable def cfmod (x y : ℝ) : ℝ := x - y * (itrunc (x / y) : ℝ)

/-- The `ANGLE` macro (`ckb-pinwheel/main.c` line 60):
`fmod((theta) + M_PI * 2., M_PI * 2.)`. -/
noncomputable def ANGLE (theta : ℝ) : ℝ := cfmod (theta + π * 2) (π * 2)

/-- The rotation phase (`ckb-pinwheel/main.c` line 76):
`position = ANGLE(-frame * M_PI * 2.)`. -/
noncomputable def position (frame : ℝ) : ℝ := ANGLE (-frame * (π * 2))

/-- The raw per-key angle (`ckb-pinwheel/main.c` lines 80-84): zero at the
wheel's centre, otherwise `ANGLE(ANGLE(atan2(...)) - position)` where `a`
stands for the `atan2` result (libm guarantees `a ∈ [-π, π]`). -/
noncomputable def rawTheta (a pos : ℝ) (atCenter : Bool) : ℝ :=
  if atCenter then 0 else ANGLE (ANGLE a - pos)

/-- The per-key angle after the symmetric option (`ckb-pinwheel/main.c`
lines 85-86): `if(symmetric && theta > M_PI) theta = M_PI * 2. - theta`. -/
noncomputable def pinTheta (symmetric : Bool) (a pos : ℝ) (atCenter : Bool) : ℝ :=
  let theta := rawTheta a pos atCenter
  if symmetric = true ∧ π < theta then π * 2 - theta else theta

end Pinwheel

/-! # Theorems -/

namespace Ckb

@[simp]
theorem postDeq_connected (O : Oracle) (i : Nat) (d : Device) :
    (postDeq O i d).connected = d.connected := rfl

@[simp]
theorem postDeq_fwversion (O : Oracle) (i : Nat) (d : Device) :
    (postDeq O i d).fwversion = d.fwversion := rfl

@[simp]
theorem postDeq_infifo (O : Oracle) (i : Nat) (d : Device) :
    (postDeq O i d).infifo = d.infifo := rfl

@[simp]
theorem postDeq_hasLines (O : Oracle) (i : Nat) (d : Device) :
    (postDeq O i d).hasLines = d.hasLines := rfl

@[simp]
theorem postDeq_queuecount (O : Oracle) (i : Nat) (d : Device) :
    (postDeq O i d).queuecount = O.queueAfter i := rfl

/-! ## Shutdown sequence: lock release (claim C4) and ordering (claim C7) -/

theorem quitDevs_no_unlock (kb : Nat → Device) (l : List Nat) (i : Nat) :
    QEv.unlockDev i ∉ quitDevs kb l := by
  induction l with
  | nil => simp [quitDevs]
  | cons j js ih =>
    simp only [quitDevs, List.mem_append]
    rintro (h | h)
    · split at h <;> simp_all
    · exact ih h

theorem quitDevs_block_sublist (kb : Nat → Device) (l : List Nat) (i : Nat)
    (hi : i ∈ l) (hc : (kb i).connected = true) :
    List.Sublist [QEv.inputclose i, QEv.revertusb i, QEv.closeusb i] (quitDevs kb l) := by
  induction l with
  | nil => cases hi
  | cons j js ih =>
    rcases List.mem_cons.mp hi with h | h
    · subst h
      rw [quitDevs, if_pos hc]
      exact List.Sublist.trans (List.sublist_cons_self _ _) (List.sublist_append_left _ _)
    · exact List.Sublist.trans (ih h) (List.sublist_append_right _ _)

/-- C4: the claim states that when `quit` completes, every lock it
acquired (structural, per-device, root) has been released.  On the code
this is false: `quit` contains a single `pthread_mutex_unlock`, for
`kblistmutex` only; here, with one connected device, the device lock and
the root controller's lock are acquired and never released. -/
theorem C4_counterexample :
    (QEv.lockDev 1 ∈ quitTrace 2 exKbLines ∧ QEv.unlockDev 1 ∉ quitTrace 2 exKbLines) ∧
    (QEv.lockDev 0 ∈ quitTrace 2 exKbLines ∧ QEv.unlockDev 0 ∉ quitTrace 2 exKbLines) := by
  decide

/-- C4 (amended): when `quit` completes it has released only the
structural lock `kblistmutex` (as its final action); the per-device locks
and the root controller's lock it acquired remain held (the process
exits immediately afterwards). -/
theorem C4_only_structural_lock_released (devmax : Nat) (kb : Nat → Device) :
    (∃ body, quitTrace devmax kb = QEv.lockList :: (body ++ [QEv.unlockList])) ∧
    ∀ i, QEv.unlockDev i ∉ quitTrace devmax kb := by
  constructor
  · exact ⟨quitDevs kb (List.range' 1 (devmax - 1)) ++
      [QEv.lockDev 0, QEv.closeusb 0, QEv.usbdeinit], by simp [quitTrace]⟩
  · intro i
    simp [quitTrace, quitDevs_no_unlock kb _ i]

/-- C7: during shutdown every connected physical device (slots 1 and up)
is processed before the root controller — its input injection stopped
(`inputclose`), then reverted to stock mode (`revertusb`), then its USB
handle released (`closeusb`), in that order — and only after all of them
is the root controller's handle released and the USB subsystem
deinitialized. -/
theorem C7_shutdown_order (devmax : Nat) (kb : Nat → Device) :
    ∃ body, quitTrace devmax kb =
        QEv.lockList ::
          (body ++ [QEv.lockDev 0, QEv.closeusb 0, QEv.usbdeinit, QEv.unlockList]) ∧
      ∀ i, 1 ≤ i → i < devmax → (kb i).connected = true →
        List.Sublist [QEv.inputclose i, QEv.revertusb i, QEv.closeusb i] body := by
  refine ⟨quitDevs kb (List.range' 1 (devmax - 1)), by simp [quitTrace], ?_⟩
  intro i h1 h2 hc
  refine quitDevs_block_sublist kb _ i ?_ hc
  rw [List.mem_range'_1]
  omega

/-- C7 witness: the shutdown ordering at a concrete table with one
connected device in slot 1. -/
theorem C7_shutdown_order_witness :
    ∃ body, quitTrace 2 exKbLines =
        QEv.lockList ::
          (body ++ [QEv.lockDev 0, QEv.closeusb 0, QEv.usbdeinit, QEv.unlockList]) ∧
      List.Sublist [QEv.inputclose 1, QEv.revertusb 1, QEv.closeusb 1] body := by
  obtain ⟨body, e, h⟩ := C7_shutdown_order 2 exKbLines
  exact ⟨body, e, h 1 (by decide) (by decide) (by decide)⟩

/-! ## Signal handling (claim C8) -/

theorem sigRun_acking (n : Nat) :
    sigRun n Handler.acking = (Handler.acking, List.replicate n SEv.ackSignal) := by
  induction n with
  | zero => rfl
  | succ n ih => simp [sigRun, sigDeliver, ih, List.replicate_succ]

/-- C8: the first termination-class signal replaces the handlers
(`replaceHandlers` precedes `runQuit` in the trace) before running the
shutdown sequence, and any number of further termination signals are only
acknowledged, so `quit` runs exactly once no matter how many signals
arrive. -/
theorem C8_shutdown_once (n : Nat) :
    (sigRun (n + 1) Handler.armed).2 =
      SEv.replaceHandlers :: SEv.runQuit :: SEv.exitProc :: List.replicate n SEv.ackSignal ∧
    List.count SEv.runQuit (sigRun (n + 1) Handler.armed).2 = 1 := by
  have h : (sigRun (n + 1) Handler.armed).2 =
      SEv.replaceHandlers :: SEv.runQuit :: SEv.exitProc ::
        List.replicate n SEv.ackSignal := by
    simp [sigRun, sigDeliver, sigRun_acking]
  refine ⟨h, ?_⟩
  rw [h]
  simp [List.count_cons, List.count_replicate]

/-! ## Frame-rate default (claim C10) -/

theorem foldlFps_const (args : List Arg) (x : Nat)
    (h : ∀ a ∈ args, a.isFps = false) :
    args.foldl (fun f a => match a with | Arg.fpsArg n => setfps n | _ => f) x = x := by
  induction args generalizing x with
  | nil => rfl
  | cons a as ih =>
    have ha : a.isFps = false := h a (List.mem_cons_self a as)
    have h2 : ∀ b ∈ as, b.isFps = false := fun b hb => h b (List.mem_cons_of_mem a hb)
    cases a with
    | fpsArg n => simp [Arg.isFps] at ha
    | layoutArg => exact ih x h2
    | gidArg n => exact ih x h2
    | nobind => exact ih x h2
    | nonotify => exact ih x h2
    | nonroot => exact ih x h2
    | unknown => exact ih x h2

/-- C10: if no `--fps` flag is supplied, the daemon sets the frame rate
to 30 before entering the tick loop (`main.c` lines 152-154), and in all
cases the frame rate is non-zero when the first tick's sleep interval is
computed (a `--fps=0` flag leaves `fps` at 0, which the same check
replaces by 30). -/
theorem C10_default_fps (args : List Arg) :
    ((∀ a ∈ args, a.isFps = false) → fpsAtLoopEntry args = 30) ∧
    0 < fpsAtLoopEntry args := by
  constructor
  · intro h
    have hz : parseFps args = 0 := foldlFps_const args 0 h
    simp [fpsAtLoopEntry, hz, setfps]
  · rcases Nat.eq_zero_or_pos (parseFps args) with h | h
    · simp [fpsAtLoopEntry, h, setfps]
    · have hne : parseFps args ≠ 0 := Nat.pos_iff_ne_zero.mp h
      simpa [fpsAtLoopEntry, hne] using h

/-- C10 witness: a command line with no `--fps` flag yields frame rate 30
at loop entry. -/
theorem C10_default_fps_witness :
    fpsAtLoopEntry [Arg.nonroot] = 30 ∧ 0 < fpsAtLoopEntry [Arg.nonroot] :=
  ⟨(C10_default_fps [Arg.nonroot]).1 (by decide), (C10_default_fps [Arg.nonroot]).2⟩

end Ckb

namespace Ckb

/-! ## Helper lemmas about the tick sweep -/

theorem fifoStep_core (st : (Nat → Device) × Bool) (j m : Nat) :
    ((fifoStep st j).1.1 m).connected = (st.1 m).connected ∧
    ((fifoStep st j).1.1 m).fwversion = (st.1 m).fwversion ∧
    ((fifoStep st j).1.1 m).infifo = (st.1 m).infifo := by
  by_cases h1 : (st.1 j).infifo = true
  · by_cases h2 : (st.1 j).hasLines = true
    · by_cases h3 : m = j
      · subst h3; simp [fifoStep, upd, h1, h2]
      · simp [fifoStep, upd, h1, h2, h3]
    · simp [fifoStep, upd, h1, h2]
  · simp [fifoStep, h1]

theorem fifoStep_v_mono (st : (Nat → Device) × Bool) (j : Nat) (h : st.2 = true) :
    (fifoStep st j).1.2 = true := by
  by_cases h1 : (st.1 j).infifo = true <;> simp [fifoStep, h1, h]

theorem fifoStep_v_backward (st : (Nat → Device) × Bool) (j : Nat)
    (h : (fifoStep st j).1.2 = true) :
    st.2 = true ∨ ((st.1 j).infifo = true ∧ 0x0120 ≤ (st.1 j).fwversion) := by
  by_cases h1 : (st.1 j).infifo = true
  · simp only [fifoStep, h1, if_true, Bool.or_eq_true, decide_eq_true_eq] at h
    rcases h with h | h
    · exact Or.inl h
    · exact Or.inr ⟨h1, h⟩
  · left
    simpa [fifoStep, h1] using h

theorem fifoSweep_core (l : List Nat) (st : (Nat → Device) × Bool) (m : Nat) :
    ((fifoSweep l st).1.1 m).connected = (st.1 m).connected ∧
    ((fifoSweep l st).1.1 m).fwversion = (st.1 m).fwversion ∧
    ((fifoSweep l st).1.1 m).infifo = (st.1 m).infifo := by
  induction l generalizing st with
  | nil => simp [fifoSweep]
  | cons j js ih =>
    have h1 := fifoStep_core st j m
    have h2 := ih (fifoStep st j).1
    simp only [fifoSweep]
    exact ⟨h2.1.trans h1.1, h2.2.1.trans h1.2.1, h2.2.2.trans h1.2.2⟩

theorem fifoSweep_v_mono (l : List Nat) (st : (Nat → Device) × Bool) (h : st.2 = true) :
    (fifoSweep l st).1.2 = true := by
  induction l generalizing st with
  | nil => simpa [fifoSweep] using h
  | cons j js ih => exact ih _ (fifoStep_v_mono st j h)

theorem fifoSweep_v_of_mem (l : List Nat) (st : (Nat → Device) × Bool) (i : Nat)
    (hi : i ∈ l) (hinf : (st.1 i).infifo = true) (hfw : 0x0120 ≤ (st.1 i).fwversion) :
    (fifoSweep l st).1.2 = true := by
  induction l generalizing st with
  | nil => cases hi
  | cons j js ih =>
    rcases List.mem_cons.mp hi with h | h
    · subst h
      refine fifoSweep_v_mono js _ ?_
      simp [fifoStep, hinf, hfw]
    · have hc := fifoStep_core st j i
      refine ih (fifoStep st j).1 h ?_ ?_
      · rw [hc.2.2]; exact hinf
      · rw [hc.2.1]; exact hfw

theorem fifoSweep_v_backward (l : List Nat) (st : (Nat → Device) × Bool)
    (h : (fifoSweep l st).1.2 = true) :
    st.2 = true ∨ ∃ j ∈ l, (st.1 j).infifo = true ∧ 0x0120 ≤ (st.1 j).fwversion := by
  induction l generalizing st with
  | nil => exact Or.inl (by simpa [fifoSweep] using h)
  | cons j js ih =>
    rcases ih (fifoStep st j).1 h with h1 | ⟨m, hm, hinf, hfw⟩
    · rcases fifoStep_v_backward st j h1 with h2 | h2
      · exact Or.inl h2
      · exact Or.inr ⟨j, List.mem_cons_self j js, h2⟩
    · have hc := fifoStep_core st j m
      exact Or.inr ⟨m, List.mem_cons_of_mem j hm, hc.2.2 ▸ hinf, hc.2.1 ▸ hfw⟩

theorem fifoStep_no_usbdequeue (st : (Nat → Device) × Bool) (j i : Nat) :
    Ev.usbdequeue i ∉ (fifoStep st j).2 := by
  by_cases h1 : (st.1 j).infifo = true
  · by_cases h2 : (st.1 j).hasLines = true <;> simp [fifoStep, h1, h2]
  · simp [fifoStep, h1]

theorem fifoSweep_no_usbdequeue (l : List Nat) (st : (Nat → Device) × Bool) (i : Nat) :
    Ev.usbdequeue i ∉ (fifoSweep l st).2 := by
  induction l generalizing st with
  | nil => simp [fifoSweep]
  | cons j js ih =>
    simp only [fifoSweep, List.mem_append]
    rintro (h | h)
    · exact fifoStep_no_usbdequeue st j i h
    · exact ih (fifoStep st j).1 h

theorem fifoStep_hasLines_count (st : (Nat → Device) × Bool) (j i : Nat) :
    List.count (Ev.readcmd i) (fifoStep st j).2 + ((fifoStep st j).1.1 i).hasLines.toNat ≤
      (st.1 i).hasLines.toNat := by
  by_cases h1 : (st.1 j).infifo = true
  · by_cases h2 : (st.1 j).hasLines = true
    · by_cases h3 : i = j
      · subst h3; simp [fifoStep, upd, h1, h2]
      · have : j ≠ i := fun h => h3 h.symm
        simp [fifoStep, upd, h1, h2, h3, List.count_singleton, this]
    · simp [fifoStep, h1, h2]
  · simp [fifoStep, h1]

theorem fifoSweep_hasLines_count (l : List Nat) (st : (Nat → Device) × Bool) (i : Nat) :
    List.count (Ev.readcmd i) (fifoSweep l st).2 + ((fifoSweep l st).1.1 i).hasLines.toNat ≤
      (st.1 i).hasLines.toNat := by
  induction l generalizing st with
  | nil => simp [fifoSweep]
  | cons j js ih =>
    have h1 := fifoStep_hasLines_count st j i
    have h2 := ih (fifoStep st j).1
    simp only [fifoSweep, List.count_append]
    omega

end Ckb

namespace Ckb

theorem fifoSweep_connected (l : List Nat) (st : (Nat → Device) × Bool) (m : Nat) :
    ((fifoSweep l st).1.1 m).connected = (st.1 m).connected :=
  (fifoSweep_core l st m).1

theorem fifoSweep_fwversion (l : List Nat) (st : (Nat → Device) × Bool) (m : Nat) :
    ((fifoSweep l st).1.1 m).fwversion = (st.1 m).fwversion :=
  (fifoSweep_core l st m).2.1

theorem fifoSweep_infifo (l : List Nat) (st : (Nat → Device) × Bool) (m : Nat) :
    ((fifoSweep l st).1.1 m).infifo = (st.1 m).infifo :=
  (fifoSweep_core l st m).2.2

theorem devStep_eq_skip (O : Oracle) (devmax : Nat) (st : (Nat → Device) × Bool) (i : Nat)
    (hcon : (st.1 i).connected = false) :
    devStep O devmax st i = (st, []) := by
  simp [devStep, hcon]

theorem devStep_eq_close (O : Oracle) (devmax : Nat) (st : (Nat → Device) × Bool) (i : Nat)
    (hcon : (st.1 i).connected = true) (hff : (O.deqZero i && O.resetFail i) = true) :
    devStep O devmax st i =
      ((upd (upd st.1 i (postDeq O i (st.1 i))) i closedDev, st.2),
       [Ev.lockDev i, Ev.usbdequeue i, Ev.usb_tryreset i, Ev.closeusb i]) := by
  simp [devStep, hcon, hff]

theorem devStep_eq_empty (O : Oracle) (devmax : Nat) (st : (Nat → Device) × Bool) (i : Nat)
    (hcon : (st.1 i).connected = true) (hff : (O.deqZero i && O.resetFail i) = false)
    (hq : O.queueAfter i = 0) :
    devStep O devmax st i =
      ((fifoSweep (List.range devmax)
          (upd st.1 i (postDeq O i (st.1 i)), st.2)).1,
       ([Ev.lockDev i, Ev.usbdequeue i] ++
          (if O.deqZero i then [Ev.usb_tryreset i] else [])) ++
         (fifoSweep (List.range devmax)
           (upd st.1 i (postDeq O i (st.1 i)), st.2)).2 ++
         [Ev.updateindicators i, Ev.unlockDev i]) := by
  simp [devStep, hcon, hff, hq]

theorem devStep_eq_busy (O : Oracle) (devmax : Nat) (st : (Nat → Device) × Bool) (i : Nat)
    (hcon : (st.1 i).connected = true) (hff : (O.deqZero i && O.resetFail i) = false)
    (hq : O.queueAfter i ≠ 0) :
    devStep O devmax st i =
      ((upd st.1 i (postDeq O i (st.1 i)), st.2),
       ([Ev.lockDev i, Ev.usbdequeue i] ++
          (if O.deqZero i then [Ev.usb_tryreset i] else [])) ++ [Ev.unlockDev i]) := by
  simp [devStep, hcon, hff, hq]

end Ckb

namespace Ckb

theorem devStep_other (O : Oracle) (devmax : Nat) (st : (Nat → Device) × Bool) (i m : Nat)
    (hm : m ≠ i) :
    ((devStep O devmax st i).1.1 m).connected = (st.1 m).connected ∧
    ((devStep O devmax st i).1.1 m).fwversion = (st.1 m).fwversion ∧
    ((devStep O devmax st i).1.1 m).infifo = (st.1 m).infifo := by
  rcases Or.symm (Bool.eq_false_or_eq_true (st.1 i).connected) with hcon | hcon
  · rw [devStep_eq_skip O devmax st i hcon]
    exact ⟨rfl, rfl, rfl⟩
  · rcases Or.symm (Bool.eq_false_or_eq_true (O.deqZero i && O.resetFail i)) with hff | hff
    · by_cases hq : O.queueAfter i = 0
      · rw [devStep_eq_empty O devmax st i hcon hff hq]
        rw [fifoSweep_connected, fifoSweep_fwversion, fifoSweep_infifo]
        simp [upd, hm]
      · rw [devStep_eq_busy O devmax st i hcon hff hq]
        simp [upd, hm]
    · rw [devStep_eq_close O devmax st i hcon hff]
      simp [upd, hm]

theorem devStep_connected_backward (O : Oracle) (devmax : Nat)
    (st : (Nat → Device) × Bool) (i m : Nat)
    (h : ((devStep O devmax st i).1.1 m).connected = true) :
    (st.1 m).connected = true := by
  by_cases hm : m = i
  · subst hm
    rcases Or.symm (Bool.eq_false_or_eq_true (st.1 m).connected) with hcon | hcon
    · rw [devStep_eq_skip O devmax st m hcon] at h
      exact h
    · exact hcon
  · exact (devStep_other O devmax st i m hm).1 ▸ h

theorem devStep_close (O : Oracle) (devmax : Nat) (st : (Nat → Device) × Bool) (i : Nat)
    (hcon : (st.1 i).connected = true) (hdq : O.deqZero i = true)
    (hrf : O.resetFail i = true) :
    (devStep O devmax st i).1.1 i = closedDev := by
  rw [devStep_eq_close O devmax st i hcon (by rw [hdq, hrf]; rfl)]
  simp [upd]

theorem devStep_v_mono (O : Oracle) (devmax : Nat) (st : (Nat → Device) × Bool) (i : Nat)
    (h : st.2 = true) : (devStep O devmax st i).1.2 = true := by
  rcases Or.symm (Bool.eq_false_or_eq_true (st.1 i).connected) with hcon | hcon
  · rw [devStep_eq_skip O devmax st i hcon]; exact h
  · rcases Or.symm (Bool.eq_false_or_eq_true (O.deqZero i && O.resetFail i)) with hff | hff
    · by_cases hq : O.queueAfter i = 0
      · rw [devStep_eq_empty O devmax st i hcon hff hq]
        exact fifoSweep_v_mono _ _ h
      · rw [devStep_eq_busy O devmax st i hcon hff hq]; exact h
    · rw [devStep_eq_close O devmax st i hcon hff]; exact h

theorem devStep_fifocond_backward (O : Oracle) (devmax : Nat)
    (st : (Nat → Device) × Bool) (i m : Nat)
    (hinf : ((devStep O devmax st i).1.1 m).infifo = true)
    (hfw : 0x0120 ≤ ((devStep O devmax st i).1.1 m).fwversion) :
    (st.1 m).infifo = true ∧ 0x0120 ≤ (st.1 m).fwversion := by
  by_cases hm : m = i
  · subst hm
    rcases Or.symm (Bool.eq_false_or_eq_true (st.1 m).connected) with hcon | hcon
    · rw [devStep_eq_skip O devmax st m hcon] at hinf hfw
      exact ⟨hinf, hfw⟩
    · rcases Or.symm (Bool.eq_false_or_eq_true (O.deqZero m && O.resetFail m)) with hff | hff
      · by_cases hq : O.queueAfter m = 0
        · rw [devStep_eq_empty O devmax st m hcon hff hq] at hinf hfw
          rw [fifoSweep_infifo] at hinf
          rw [fifoSweep_fwversion] at hfw
          simp [upd] at hinf hfw
          exact ⟨hinf, hfw⟩
        · rw [devStep_eq_busy O devmax st m hcon hff hq] at hinf hfw
          simp [upd] at hinf hfw
          exact ⟨hinf, hfw⟩
      · rw [devStep_eq_close O devmax st m hcon hff] at hinf
        simp [upd, closedDev] at hinf
  · have hc := devStep_other O devmax st i m hm
    exact ⟨hc.2.2 ▸ hinf, hc.2.1 ▸ hfw⟩

theorem devStep_v_backward (O : Oracle) (devmax : Nat) (st : (Nat → Device) × Bool) (i : Nat)
    (h : (devStep O devmax st i).1.2 = true) :
    st.2 = true ∨ ∃ j, j < devmax ∧ (st.1 j).infifo = true ∧ 0x0120 ≤ (st.1 j).fwversion := by
  rcases Or.symm (Bool.eq_false_or_eq_true (st.1 i).connected) with hcon | hcon
  · rw [devStep_eq_skip O devmax st i hcon] at h; exact Or.inl h
  · rcases Or.symm (Bool.eq_false_or_eq_true (O.deqZero i && O.resetFail i)) with hff | hff
    · by_cases hq : O.queueAfter i = 0
      · rw [devStep_eq_empty O devmax st i hcon hff hq] at h
        rcases fifoSweep_v_backward _ _ h with h1 | ⟨j, hj, hinf, hfw⟩
        · exact Or.inl h1
        · refine Or.inr ⟨j, List.mem_range.mp hj, ?_, ?_⟩
          · by_cases hji : j = i
            · subst hji; simpa [upd] using hinf
            · simpa [upd, hji] using hinf
          · by_cases hji : j = i
            · subst hji; simpa [upd] using hfw
            · simpa [upd, hji] using hfw
      · rw [devStep_eq_busy O devmax st i hcon hff hq] at h; exact Or.inl h
    · rw [devStep_eq_close O devmax st i hcon hff] at h; exact Or.inl h

end Ckb

namespace Ckb

theorem devStep_usbdequeue_self (O : Oracle) (devmax : Nat)
    (st : (Nat → Device) × Bool) (i : Nat) :
    List.count (Ev.usbdequeue i) (devStep O devmax st i).2 ≤ 1 := by
  rcases Or.symm (Bool.eq_false_or_eq_true (st.1 i).connected) with hcon | hcon
  · rw [devStep_eq_skip O devmax st i hcon]; simp
  · rcases Or.symm (Bool.eq_false_or_eq_true (O.deqZero i && O.resetFail i)) with hff | hff
    · have hns : List.count (Ev.usbdequeue i)
          (fifoSweep (List.range devmax)
            (upd st.1 i (postDeq O i (st.1 i)), st.2)).2 = 0 :=
        List.count_eq_zero.mpr (fifoSweep_no_usbdequeue _ _ i)
      by_cases hq : O.queueAfter i = 0
      · rw [devStep_eq_empty O devmax st i hcon hff hq]
        rcases Or.symm (Bool.eq_false_or_eq_true (O.deqZero i)) with hd | hd <;>
          simp [hd, List.count_append, List.count_cons, hns]
      · rw [devStep_eq_busy O devmax st i hcon hff hq]
        rcases Or.symm (Bool.eq_false_or_eq_true (O.deqZero i)) with hd | hd <;>
          simp [hd, List.count_append, List.count_cons]
    · rw [devStep_eq_close O devmax st i hcon hff]
      simp [List.count_cons]

theorem devStep_usbdequeue_other (O : Oracle) (devmax : Nat)
    (st : (Nat → Device) × Bool) (i m : Nat) (hm : m ≠ i) :
    Ev.usbdequeue m ∉ (devStep O devmax st i).2 := by
  rcases Or.symm (Bool.eq_false_or_eq_true (st.1 i).connected) with hcon | hcon
  · rw [devStep_eq_skip O devmax st i hcon]; simp
  · rcases Or.symm (Bool.eq_false_or_eq_true (O.deqZero i && O.resetFail i)) with hff | hff
    · have hns := fifoSweep_no_usbdequeue (List.range devmax)
        (upd st.1 i (postDeq O i (st.1 i)), st.2) m
      by_cases hq : O.queueAfter i = 0
      · rw [devStep_eq_empty O devmax st i hcon hff hq]
        rcases Or.symm (Bool.eq_false_or_eq_true (O.deqZero i)) with hd | hd <;>
          simp [hd, hm, hns]
      · rw [devStep_eq_busy O devmax st i hcon hff hq]
        rcases Or.symm (Bool.eq_false_or_eq_true (O.deqZero i)) with hd | hd <;>
          simp [hd, hm]
    · rw [devStep_eq_close O devmax st i hcon hff]
      simp [hm]

theorem devStep_unlock_mem (O : Oracle) (devmax : Nat)
    (st : (Nat → Device) × Bool) (i : Nat)
    (hcon : (st.1 i).connected = true) (hff : (O.deqZero i && O.resetFail i) = false) :
    Ev.unlockDev i ∈ (devStep O devmax st i).2 := by
  by_cases hq : O.queueAfter i = 0
  · rw [devStep_eq_empty O devmax st i hcon hff hq]; simp
  · rw [devStep_eq_busy O devmax st i hcon hff hq]; simp

theorem devStep_readcmd_pos (O : Oracle) (devmax : Nat)
    (st : (Nat → Device) × Bool) (i m : Nat)
    (h : Ev.readcmd m ∈ (devStep O devmax st i).2) :
    (st.1 i).connected = true ∧ (O.deqZero i && O.resetFail i) = false ∧
      O.queueAfter i = 0 := by
  rcases Or.symm (Bool.eq_false_or_eq_true (st.1 i).connected) with hcon | hcon
  · rw [devStep_eq_skip O devmax st i hcon] at h; simp at h
  · rcases Or.symm (Bool.eq_false_or_eq_true (O.deqZero i && O.resetFail i)) with hff | hff
    · by_cases hq : O.queueAfter i = 0
      · exact ⟨hcon, hff, hq⟩
      · rw [devStep_eq_busy O devmax st i hcon hff hq] at h
        rcases Or.symm (Bool.eq_false_or_eq_true (O.deqZero i)) with hd | hd <;>
          simp [hd] at h
    · rw [devStep_eq_close O devmax st i hcon hff] at h
      simp at h

theorem devStep_hasLines_count (O : Oracle) (devmax : Nat)
    (st : (Nat → Device) × Bool) (i m : Nat) :
    List.count (Ev.readcmd m) (devStep O devmax st i).2 +
        ((devStep O devmax st i).1.1 m).hasLines.toNat ≤ (st.1 m).hasLines.toNat := by
  rcases Or.symm (Bool.eq_false_or_eq_true (st.1 i).connected) with hcon | hcon
  · rw [devStep_eq_skip O devmax st i hcon]; simp
  · rcases Or.symm (Bool.eq_false_or_eq_true (O.deqZero i && O.resetFail i)) with hff | hff
    · by_cases hq : O.queueAfter i = 0
      · rw [devStep_eq_empty O devmax st i hcon hff hq]
        have hcnt := fifoSweep_hasLines_count (List.range devmax)
          (upd st.1 i (postDeq O i (st.1 i)), st.2) m
        have hbd : ((upd st.1 i (postDeq O i (st.1 i)),
            st.2).1 m).hasLines.toNat = (st.1 m).hasLines.toNat := by
          by_cases hmi : m = i
          · subst hmi; simp [upd]
          · simp [upd, hmi]
        rw [hbd] at hcnt
        rcases Or.symm (Bool.eq_false_or_eq_true (O.deqZero i)) with hd | hd <;>
          · simp [hd, List.count_append, List.count_cons]
            omega
      · rw [devStep_eq_busy O devmax st i hcon hff hq]
        by_cases hmi : m = i
        · subst hmi
          rcases Or.symm (Bool.eq_false_or_eq_true (O.deqZero m)) with hd | hd <;>
            simp [hd, upd]
        · rcases Or.symm (Bool.eq_false_or_eq_true (O.deqZero i)) with hd | hd <;>
            simp [hd, upd, hmi]
    · rw [devStep_eq_close O devmax st i hcon hff]
      by_cases hmi : m = i
      · subst hmi; simp [upd, closedDev]
      · simp [upd, hmi]

end Ckb

namespace Ckb

theorem sweep_connected_backward (O : Oracle) (devmax : Nat) (l : List Nat)
    (st : (Nat → Device) × Bool) (m : Nat)
    (h : ((sweep O devmax l st).1.1 m).connected = true) :
    (st.1 m).connected = true := by
  induction l generalizing st with
  | nil => simpa [sweep] using h
  | cons j js ih =>
    simp only [sweep] at h
    exact devStep_connected_backward O devmax st j m (ih _ h)

theorem sweep_closed_pres (O : Oracle) (devmax : Nat) (l : List Nat)
    (st : (Nat → Device) × Bool) (m : Nat)
    (h : (st.1 m).connected = false) :
    ((sweep O devmax l st).1.1 m).connected = false := by
  rcases Or.symm (Bool.eq_false_or_eq_true ((sweep O devmax l st).1.1 m).connected)
    with h2 | h2
  · exact h2
  · rw [sweep_connected_backward O devmax l st m h2] at h
    cases h

theorem sweep_close (O : Oracle) (devmax : Nat) (l : List Nat)
    (st : (Nat → Device) × Bool) (i : Nat)
    (hi : i ∈ l) (hcon : (st.1 i).connected = true)
    (hdq : O.deqZero i = true) (hrf : O.resetFail i = true) :
    ((sweep O devmax l st).1.1 i).connected = false := by
  induction l generalizing st with
  | nil => cases hi
  | cons j js ih =>
    simp only [sweep]
    by_cases hj : j = i
    · subst hj
      refine sweep_closed_pres O devmax js _ j ?_
      rw [devStep_close O devmax st j hcon hdq hrf]
      rfl
    · rcases List.mem_cons.mp hi with h | h
      · exact absurd h.symm hj
      · refine ih _ h ?_
        rw [(devStep_other O devmax st j i (fun he => hj he.symm)).1]
        exact hcon

theorem sweep_usbdequeue_notmem (O : Oracle) (devmax : Nat) (l : List Nat)
    (st : (Nat → Device) × Bool) (i : Nat) (hi : i ∉ l) :
    Ev.usbdequeue i ∉ (sweep O devmax l st).2 := by
  induction l generalizing st with
  | nil => simp [sweep]
  | cons j js ih =>
    simp only [sweep, List.mem_append]
    rintro (h | h)
    · exact devStep_usbdequeue_other O devmax st j i
        (fun he => hi (he ▸ List.mem_cons_self j js)) h
    · exact ih _ (fun hm => hi (List.mem_cons_of_mem j hm)) h

theorem sweep_usbdequeue_count (O : Oracle) (devmax : Nat) (l : List Nat)
    (st : (Nat → Device) × Bool) (i : Nat) (hl : l.Nodup) :
    List.count (Ev.usbdequeue i) (sweep O devmax l st).2 ≤ 1 := by
  induction l generalizing st with
  | nil => simp [sweep]
  | cons j js ih =>
    have hnd := List.nodup_cons.mp hl
    simp only [sweep, List.count_append]
    by_cases hj : j = i
    · subst hj
      have h2 : List.count (Ev.usbdequeue j)
          (sweep O devmax js (devStep O devmax st j).1).2 = 0 :=
        List.count_eq_zero.mpr (sweep_usbdequeue_notmem O devmax js _ j hnd.1)
      have h1 := devStep_usbdequeue_self O devmax st j
      omega
    · have h1 : List.count (Ev.usbdequeue i) (devStep O devmax st j).2 = 0 :=
        List.count_eq_zero.mpr
          (devStep_usbdequeue_other O devmax st j i (fun he => hj he.symm))
      have h2 := ih (devStep O devmax st j).1 hnd.2
      omega

theorem sweep_unlock_mem (O : Oracle) (devmax : Nat) (l : List Nat)
    (st : (Nat → Device) × Bool) (i : Nat)
    (hi : i ∈ l) (hcon : (st.1 i).connected = true)
    (hff : (O.deqZero i && O.resetFail i) = false) :
    Ev.unlockDev i ∈ (sweep O devmax l st).2 := by
  induction l generalizing st with
  | nil => cases hi
  | cons j js ih =>
    simp only [sweep, List.mem_append]
    by_cases hj : j = i
    · subst hj
      exact Or.inl (devStep_unlock_mem O devmax st j hcon hff)
    · rcases List.mem_cons.mp hi with h | h
      · exact absurd h.symm hj
      · refine Or.inr (ih _ h ?_)
        rw [(devStep_other O devmax st j i (fun he => hj he.symm)).1]
        exact hcon

theorem sweep_v_mono (O : Oracle) (devmax : Nat) (l : List Nat)
    (st : (Nat → Device) × Bool) (h : st.2 = true) :
    (sweep O devmax l st).1.2 = true := by
  induction l generalizing st with
  | nil => simpa [sweep] using h
  | cons j js ih => exact ih _ (devStep_v_mono O devmax st j h)

theorem sweep_v_backward (O : Oracle) (devmax : Nat) (l : List Nat)
    (st : (Nat → Device) × Bool) (h : (sweep O devmax l st).1.2 = true) :
    st.2 = true ∨
      ∃ j, j < devmax ∧ (st.1 j).infifo = true ∧ 0x0120 ≤ (st.1 j).fwversion := by
  induction l generalizing st with
  | nil => exact Or.inl (by simpa [sweep] using h)
  | cons j js ih =>
    simp only [sweep] at h
    rcases ih _ h with h1 | ⟨m, hm, hinf, hfw⟩
    · exact devStep_v_backward O devmax st j h1
    · have hc := devStep_fifocond_backward O devmax st j m hinf hfw
      exact Or.inr ⟨m, hm, hc.1, hc.2⟩

theorem sweep_v_of (O : Oracle) (devmax : Nat) (l : List Nat)
    (st : (Nat → Device) × Bool) (i : Nat)
    (hi : i ∈ l) (hcon : (st.1 i).connected = true)
    (hff : (O.deqZero i && O.resetFail i) = false) (hq : O.queueAfter i = 0)
    (hinf : (st.1 i).infifo = true) (hfw : 0x0120 ≤ (st.1 i).fwversion)
    (hd : i < devmax) :
    (sweep O devmax l st).1.2 = true := by
  induction l generalizing st with
  | nil => cases hi
  | cons j js ih =>
    simp only [sweep]
    by_cases hj : j = i
    · subst hj
      refine sweep_v_mono O devmax js _ ?_
      rw [devStep_eq_empty O devmax st j hcon hff hq]
      exact fifoSweep_v_of_mem (List.range devmax)
        (upd st.1 j (postDeq O j (st.1 j)), st.2) j (List.mem_range.mpr hd)
        (by simpa [upd] using hinf) (by simpa [upd] using hfw)
    · rcases List.mem_cons.mp hi with h | h
      · exact absurd h.symm hj
      · have hp := devStep_other O devmax st j i (fun he => hj he.symm)
        refine ih _ h ?_ ?_ ?_
        · rw [hp.1]; exact hcon
        · rw [hp.2.2]; exact hinf
        · rw [hp.2.1]; exact hfw

theorem sweep_hasLines_count (O : Oracle) (devmax : Nat) (l : List Nat)
    (st : (Nat → Device) × Bool) (m : Nat) :
    List.count (Ev.readcmd m) (sweep O devmax l st).2 +
        ((sweep O devmax l st).1.1 m).hasLines.toNat ≤ (st.1 m).hasLines.toNat := by
  induction l generalizing st with
  | nil => simp [sweep]
  | cons j js ih =>
    have h1 := devStep_hasLines_count O devmax st j m
    have h2 := ih (devStep O devmax st j).1
    simp only [sweep, List.count_append]
    omega

theorem sweep_readcmd_pos (O : Oracle) (devmax : Nat) (l : List Nat)
    (st : (Nat → Device) × Bool) (m : Nat)
    (h : Ev.readcmd m ∈ (sweep O devmax l st).2) :
    ∃ j ∈ l, (st.1 j).connected = true ∧ (O.deqZero j && O.resetFail j) = false ∧
      O.queueAfter j = 0 := by
  induction l generalizing st with
  | nil => simp [sweep] at h
  | cons j js ih =>
    simp only [sweep, List.mem_append] at h
    rcases h with h | h
    · have hc := devStep_readcmd_pos O devmax st j m h
      exact ⟨j, List.mem_cons_self j js, hc⟩
    · rcases ih _ h with ⟨k, hk, hkcon, hkff, hkq⟩
      exact ⟨k, List.mem_cons_of_mem j hk,
        devStep_connected_backward O devmax st j k hkcon, hkff, hkq⟩

end Ckb

namespace Ckb

theorem rootIntake_core (kb : Nat → Device) (m : Nat) :
    ((rootIntake kb).1 m).connected = (kb m).connected ∧
    ((rootIntake kb).1 m).fwversion = (kb m).fwversion ∧
    ((rootIntake kb).1 m).infifo = (kb m).infifo := by
  rcases Or.symm (Bool.eq_false_or_eq_true ((kb 0).infifo && (kb 0).hasLines)) with h | h
  · simp [rootIntake, h]
  · by_cases hm : m = 0
    · subst hm; simp [rootIntake, h, upd]
    · simp [rootIntake, h, upd, hm]

theorem rootIntake_no_usbdequeue (kb : Nat → Device) (i : Nat) :
    Ev.usbdequeue i ∉ (rootIntake kb).2 := by
  rcases Or.symm (Bool.eq_false_or_eq_true ((kb 0).infifo && (kb 0).hasLines)) with h | h <;>
    simp [rootIntake, h]

theorem rootIntake_hasLines_count (kb : Nat → Device) (m : Nat) :
    List.count (Ev.readcmd m) (rootIntake kb).2 +
        ((rootIntake kb).1 m).hasLines.toNat ≤ (kb m).hasLines.toNat := by
  rcases Or.symm (Bool.eq_false_or_eq_true ((kb 0).infifo && (kb 0).hasLines)) with h | h
  · simp [rootIntake, h]
  · by_cases hm : m = 0
    · subst hm
      have hl : (kb 0).hasLines = true := by
        have h2 := h
        simp only [Bool.and_eq_true] at h2
        exact h2.2
      have hinf : (kb 0).infifo = true := by
        have h2 := h
        simp only [Bool.and_eq_true] at h2
        exact h2.1
      simp [rootIntake, h, upd, hl, hinf]
    · have hm2 : ¬(Ev.readcmd 0 = Ev.readcmd m) := by
        intro he; cases he; exact hm rfl
      simp [rootIntake, h, upd, hm, List.count_singleton, hm2]

theorem rootIntake_readcmd0 (kb : Nat → Device)
    (h1 : (kb 0).infifo = true) (h2 : (kb 0).hasLines = true) :
    (rootIntake kb).2 = [Ev.readcmd 0] := by
  simp [rootIntake, h1, h2]

/-! ## USB queue drain: one send attempt per device per tick (claim C1) -/

/-- C1: in every tick, at most one `usbdequeue` call is made per device
regardless of queue depth, and a device whose send fails (`usbdequeue`
returns 0) and whose subsequent reset also fails is closed, so its
connected flag is false in the device table the tick leaves behind. -/
theorem C1_drain_once_and_close (O : Oracle) (devmax : Nat) (kb : Nat → Device)
    (v : Bool) (i : Nat) :
    List.count (Ev.usbdequeue i) (tick O devmax kb v).2 ≤ 1 ∧
    (i < devmax → (kb i).connected = true → O.deqZero i = true → O.resetFail i = true →
      ((tick O devmax kb v).1.1 i).connected = false) := by
  constructor
  · have h0 : List.count (Ev.usbdequeue i) (rootIntake kb).2 = 0 :=
      List.count_eq_zero.mpr (rootIntake_no_usbdequeue kb i)
    have h1 := sweep_usbdequeue_count O devmax (List.range devmax)
      ((rootIntake kb).1, v) i (List.nodup_range devmax)
    simp only [tick, List.count_cons, List.count_append]
    simp [h0]
    omega
  · intro hd hcon hdq hrf
    simp only [tick]
    refine sweep_close O devmax (List.range devmax) _ i (List.mem_range.mpr hd) ?_ hdq hrf
    rw [(rootIntake_core kb i).1]
    exact hcon

/-- C1 witness: at a concrete connected device whose send and reset both
fail, the tick makes at most one send attempt and leaves the device
disconnected. -/
theorem C1_drain_once_and_close_witness :
    List.count (Ev.usbdequeue 1) (tick exOracleFail 2 exKbLines false).2 ≤ 1 ∧
      ((tick exOracleFail 2 exKbLines false).1.1 1).connected = false :=
  ⟨(C1_drain_once_and_close exOracleFail 2 exKbLines false 1).1,
   (C1_drain_once_and_close exOracleFail 2 exKbLines false 1).2 (by decide) (by decide)
     (by decide) (by decide)⟩

end Ckb

namespace Ckb

/-! ## Packet multiplier and the v120 latch (claim C3) -/

/-- C3: the claim states the multiplier is 12 iff some connected device
reports firmware `>= 0x0120` during that tick, with 5 used whenever no
such device exists.  On the code `v120` is latched and never reset: after
a first tick in which the v120-class device in slot 1 empties its queue
(latching `v120`) and a second tick in which that device fails and is
closed, a third tick starts with no connected device at all and still
computes multiplier 12, where the claim requires 5. -/
theorem C3_counterexample :
    (∀ i, i < 2 → ((exTick2.1.1) i).connected = false) ∧
      multiplier exTick3.1.2 = 12 := by
  decide

/-- C3 (amended): the multiplier is `12` when the `v120` flag is set and
`5` otherwise, and the flag is a monotone latch: it survives every tick
once set (even with no connected devices); within one tick it becomes
set only if some device with an open FIFO reports firmware `>= 0x0120`,
and it does become set when a connected device with an open FIFO and
firmware `>= 0x0120` empties its queue without failing. -/
theorem C3_v120_latch (O : Oracle) (devmax : Nat) (kb : Nat → Device) (v : Bool) :
    (v = true → (tick O devmax kb v).1.2 = true) ∧
    ((tick O devmax kb v).1.2 = true → v = true ∨
      ∃ j, j < devmax ∧ (kb j).infifo = true ∧ 0x0120 ≤ (kb j).fwversion) ∧
    (∀ i, i < devmax → (kb i).connected = true →
      (O.deqZero i && O.resetFail i) = false → O.queueAfter i = 0 →
      (kb i).infifo = true → 0x0120 ≤ (kb i).fwversion →
      (tick O devmax kb v).1.2 = true) ∧
    multiplier true = 12 ∧ multiplier false = 5 := by
  refine ⟨?_, ?_, ?_, rfl, rfl⟩
  · intro hv
    simp only [tick]
    exact sweep_v_mono O devmax (List.range devmax) _ hv
  · intro h
    simp only [tick] at h
    rcases sweep_v_backward O devmax (List.range devmax) _ h with h1 | ⟨j, hj, hinf, hfw⟩
    · exact Or.inl h1
    · have hc := rootIntake_core kb j
      exact Or.inr ⟨j, hj, hc.2.2 ▸ hinf, hc.2.1 ▸ hfw⟩
  · intro i hd hcon hff hq hinf hfw
    simp only [tick]
    have hc := rootIntake_core kb i
    refine sweep_v_of O devmax (List.range devmax) _ i (List.mem_range.mpr hd) ?_ hff hq
      ?_ ?_ hd
    · rw [hc.1]; exact hcon
    · rw [hc.2.2]; exact hinf
    · rw [hc.2.1]; exact hfw

/-- C3 witness: the latch does become set when a connected v120-class
device with an open FIFO empties its queue, and the multiplier values
are 12 and 5. -/
theorem C3_v120_latch_witness :
    (tick exOracleOk 2 exKbHigh false).1.2 = true ∧
      multiplier true = 12 ∧ multiplier false = 5 :=
  ⟨(C3_v120_latch exOracleOk 2 exKbHigh false).2.2.1 1 (by decide) (by decide)
      (by decide) (by decide) (by decide) (by decide),
   (C3_v120_latch exOracleOk 2 exKbHigh false).2.2.2.1,
   (C3_v120_latch exOracleOk 2 exKbHigh false).2.2.2.2⟩

/-! ## Command intake (claim C5) -/

/-- C5: the claim states that every device's available complete lines are
applied in every tick regardless of any outgoing queue's state, with the
root channel treated the same way.  On the code the per-device FIFO pass
runs only when some connected device's queue has just drained: here slot
1 has an open FIFO with a complete line available, its send succeeds but
leaves its queue non-empty, and its line is not applied in the tick. -/
theorem C5_counterexample :
    (exKbLines 1).infifo = true ∧ (exKbLines 1).hasLines = true ∧
    Ev.readcmd 1 ∉ (tick exOracleBusy 2 exKbLines false).2 := by
  decide

/-- C5 (amended): the root controller's channel is processed
unconditionally at the start of every tick (unlike the physical
devices'); each device's available lines are applied at most once per
tick; and a physical device's lines are applied in a tick only if some
connected device finished that tick's send with an empty outgoing queue
(and without a failed send plus failed reset). -/
theorem C5_command_intake (O : Oracle) (devmax : Nat) (kb : Nat → Device) (v : Bool) :
    ((kb 0).infifo = true → (kb 0).hasLines = true →
      Ev.readcmd 0 ∈ (tick O devmax kb v).2) ∧
    (∀ m, List.count (Ev.readcmd m) (tick O devmax kb v).2 ≤ 1) ∧
    (∀ m, m ≠ 0 → Ev.readcmd m ∈ (tick O devmax kb v).2 →
      ∃ j, j < devmax ∧ (kb j).connected = true ∧
        (O.deqZero j && O.resetFail j) = false ∧ O.queueAfter j = 0) := by
  refine ⟨?_, ?_, ?_⟩
  · intro h1 h2
    simp [tick, rootIntake_readcmd0 kb h1 h2]
  · intro m
    have hroot := rootIntake_hasLines_count kb m
    have hsweep : List.count (Ev.readcmd m)
          (sweep O devmax (List.range devmax) ((rootIntake kb).1, v)).2 +
        ((sweep O devmax (List.range devmax) ((rootIntake kb).1, v)).1.1 m).hasLines.toNat ≤
        ((rootIntake kb).1 m).hasLines.toNat :=
      sweep_hasLines_count O devmax (List.range devmax) ((rootIntake kb).1, v) m
    have hb : (kb m).hasLines.toNat ≤ 1 := by
      cases hx : (kb m).hasLines <;> simp
    simp only [tick, List.count_cons, List.count_append]
    simp
    omega
  · intro m hm h
    have hs : Ev.readcmd m ∈
        (sweep O devmax (List.range devmax) ((rootIntake kb).1, v)).2 := by
      rcases Or.symm (Bool.eq_false_or_eq_true ((kb 0).infifo && (kb 0).hasLines))
        with hr | hr
      · simp [tick, rootIntake, hr] at h
        simpa [rootIntake, hr] using h
      · simp [tick, rootIntake, hr] at h
        simpa [rootIntake, hr] using h.resolve_left hm
    rcases sweep_readcmd_pos O devmax (List.range devmax) _ m hs
      with ⟨j, hj, hcon, hff, hq⟩
    refine ⟨j, List.mem_range.mp hj, ?_, hff, hq⟩
    rw [(rootIntake_core kb j).1] at hcon
    exact hcon

/-- C5 witness: at a concrete tick in which slot 1 drains its queue, the
root line is applied, every line at most once, and a draining device
exists. -/
theorem C5_command_intake_witness :
    Ev.readcmd 0 ∈ (tick exOracleOk 2 exKbRoot false).2 ∧
    List.count (Ev.readcmd 1) (tick exOracleOk 2 exKbRoot false).2 ≤ 1 ∧
    ∃ j, j < 2 ∧ (exKbRoot j).connected = true ∧
      (exOracleOk.deqZero j && exOracleOk.resetFail j) = false ∧
      exOracleOk.queueAfter j = 0 :=
  ⟨(C5_command_intake exOracleOk 2 exKbRoot false).1 (by decide) (by decide),
   (C5_command_intake exOracleOk 2 exKbRoot false).2.1 1,
   (C5_command_intake exOracleOk 2 exKbRoot false).2.2 1 (by decide) (by decide)⟩

/-! ## Lock discipline of the tick (claim C6) -/

/-- C6: the claim states that every per-device lock acquired during the
sweep is released before the structural lock, including on the close
path.  On the code the close path never unlocks the device mutex: here
slot 1's send and reset both fail, its lock is taken, and no release of
it appears anywhere in the tick's trace. -/
theorem C6_counterexample :
    Ev.lockDev 1 ∈ (tick exOracleFail 2 exKbLines false).2 ∧
    Ev.unlockDev 1 ∉ (tick exOracleFail 2 exKbLines false).2 := by
  decide

/-- C6 (amended): the structural lock is released as the tick's last
action before sleeping, and every per-device lock acquired in the sweep
is released before that — except on the path where a failed send
followed by a failed reset closes the device, which leaves the device
mutex locked. -/
theorem C6_lock_release (O : Oracle) (devmax : Nat) (kb : Nat → Device) (v : Bool) :
    ∃ l, (tick O devmax kb v).2 = Ev.lockList :: (l ++ [Ev.unlockList]) ∧
      ∀ i, i < devmax → (kb i).connected = true →
        (O.deqZero i && O.resetFail i) = false → Ev.unlockDev i ∈ l := by
  refine ⟨(rootIntake kb).2 ++
    (sweep O devmax (List.range devmax) ((rootIntake kb).1, v)).2, ?_, ?_⟩
  · simp [tick]
  · intro i hd hcon hff
    refine List.mem_append.mpr (Or.inr ?_)
    refine sweep_unlock_mem O devmax (List.range devmax) _ i (List.mem_range.mpr hd)
      ?_ hff
    rw [(rootIntake_core kb i).1]
    exact hcon

/-- C6 witness: at a concrete tick whose device does not fail, the
device lock release appears before the structural release. -/
theorem C6_lock_release_witness :
    ∃ l, (tick exOracleBusy 2 exKbLines false).2 = Ev.lockList :: (l ++ [Ev.unlockList]) ∧
      Ev.unlockDev 1 ∈ l := by
  obtain ⟨l, hl, h⟩ := C6_lock_release exOracleBusy 2 exKbLines false
  exact ⟨l, hl, h 1 (by decide) (by decide) (by decide)⟩

end Ckb

namespace Ckb

/-! ## Frame-rate sleep interval (claim C2) -/

theorem toNs_timespec_add (t : Timespec) (s : Int) :
    toNs (timespec_add t s) = toNs t + s := by
  have h := Int.tdiv_add_tmod (s + t.tv_nsec) 1000000000
  simp only [toNs, timespec_add]
  omega

theorem timespec_add_wf (t : Timespec) (s : Int) (ht : t.wf) (hs : 0 ≤ s) :
    (timespec_add t s).wf := by
  obtain ⟨ht1, ht2⟩ := ht
  constructor
  · exact Int.tmod_nonneg _ (by omega)
  · exact Int.tmod_lt_of_pos _ (by norm_num)

theorem timespec_gt_iff (a b : Timespec) (ha : a.wf) (hb : b.wf) :
    timespec_gt a b = true ↔ toNs b < toNs a := by
  obtain ⟨ha1, ha2⟩ := ha
  obtain ⟨hb1, hb2⟩ := hb
  simp only [timespec_gt, decide_eq_true_eq, toNs]
  omega

/-- C2: the absolute wake deadline equals the tick's start time plus
`1e9/(fps·m)` nanoseconds (integer division, as computed by the C
expression `1000000000 / fps / m`, which equals `1e9 / (fps·m)`), and the
effective sleep target is the later of that deadline and `now + 100000`
ns — i.e. the sleep interval is clamped below by 100 microseconds past
the current time. -/
theorem C2_sleep_interval (fps : Nat) (v : Bool) (t0 now : Timespec)
    (h0 : t0.wf) (h1 : now.wf) :
    toNs (nexttimeOf fps v t0) =
      toNs t0 + ((1000000000 / (fps * multiplier v) : Nat) : Int) ∧
    toNs (sleepTarget fps v t0 now) =
      max (toNs (nexttimeOf fps v t0)) (toNs now + 100000) := by
  have hdiv : (1000000000 / fps / multiplier v : Nat) =
      1000000000 / (fps * multiplier v) :=
    Nat.div_div_eq_div_mul _ _ _
  have hadd1 : toNs (nexttimeOf fps v t0) =
      toNs t0 + ((1000000000 / fps / multiplier v : Nat) : Int) :=
    toNs_timespec_add t0 _
  constructor
  · rw [hadd1, hdiv]
  · have hwfN : (nexttimeOf fps v t0).wf :=
      timespec_add_wf t0 _ h0 (Int.natCast_nonneg _)
    have hwfT : (timespec_add now 100000).wf :=
      timespec_add_wf now 100000 h1 (by norm_num)
    have hTn : toNs (timespec_add now 100000) = toNs now + 100000 :=
      toNs_timespec_add now _
    rcases Or.symm (Bool.eq_false_or_eq_true
        (timespec_gt (nexttimeOf fps v t0) (timespec_add now 100000))) with hg | hg
    · have hle : toNs (nexttimeOf fps v t0) ≤ toNs now + 100000 := by
        have hi := timespec_gt_iff (nexttimeOf fps v t0) (timespec_add now 100000)
          hwfN hwfT
        rw [hTn] at hi
        by_contra hlt
        have := hi.mpr (lt_of_not_le hlt)
        rw [hg] at this
        cases this
      simp only [sleepTarget, hg, if_false, Bool.false_eq_true]
      rw [hTn, max_eq_right hle]
    · have hlt : toNs now + 100000 < toNs (nexttimeOf fps v t0) := by
        have hi := (timespec_gt_iff (nexttimeOf fps v t0) (timespec_add now 100000)
          hwfN hwfT).mp hg
        rwa [hTn] at hi
      simp only [sleepTarget, hg, if_true]
      rw [max_eq_left (le_of_lt hlt)]

/-- C2 witness: at `fps = 30`, multiplier 5, start and current time both
zero, the deadline is `6666666` ns and the clamp does not engage. -/
theorem C2_sleep_interval_witness :
    toNs (nexttimeOf 30 false ⟨0, 0⟩) =
      toNs (⟨0, 0⟩ : Timespec) + ((1000000000 / (30 * multiplier false) : Nat) : Int) ∧
    toNs (sleepTarget 30 false ⟨0, 0⟩ ⟨0, 0⟩) =
      max (toNs (nexttimeOf 30 false ⟨0, 0⟩)) (toNs (⟨0, 0⟩ : Timespec) + 100000) :=
  C2_sleep_interval 30 false ⟨0, 0⟩ ⟨0, 0⟩ (by simp [Timespec.wf])
    (by simp [Timespec.wf])

end Ckb

namespace Pinwheel

open Real

/-! ## The pinwheel angle computation (claim C9) -/

theorem cfmod_nonneg_lt (x y : ℝ) (hy : 0 < y) (hx : 0 ≤ x) :
    0 ≤ cfmod x y ∧ cfmod x y < y := by
  have hy0 : y ≠ 0 := ne_of_gt hy
  have hq : 0 ≤ x / y := div_nonneg hx hy.le
  have hid : y * (x / y) = x := by field_simp
  have h1 : (⌊x / y⌋ : ℝ) ≤ x / y := Int.floor_le _
  have h2 : x / y < ⌊x / y⌋ + 1 := Int.lt_floor_add_one _
  have e : cfmod x y = x - y * (⌊x / y⌋ : ℝ) := by
    simp [cfmod, itrunc, hq]
  rw [e]
  constructor
  · nlinarith [mul_le_mul_of_nonneg_left h1 hy.le]
  · nlinarith [mul_lt_mul_of_pos_left h2 hy]

theorem cfmod_nonpos_gt (x y : ℝ) (hy : 0 < y) (hx : x < 0) :
    -y < cfmod x y ∧ cfmod x y ≤ 0 := by
  have hy0 : y ≠ 0 := ne_of_gt hy
  have hq : x / y < 0 := div_neg_of_neg_of_pos hx hy
  have hq2 : ¬(0 ≤ x / y) := not_le.mpr hq
  have hid : y * (x / y) = x := by field_simp
  have h1 : x / y ≤ (⌈x / y⌉ : ℝ) := Int.le_ceil _
  have h2 : (⌈x / y⌉ : ℝ) < x / y + 1 := Int.ceil_lt_add_one _
  have e : cfmod x y = x - y * (⌈x / y⌉ : ℝ) := by
    simp [cfmod, itrunc, hq2]
  rw [e]
  constructor
  · nlinarith [mul_lt_mul_of_pos_left h2 hy]
  · nlinarith [mul_le_mul_of_nonneg_left h1 hy.le]

theorem cfmod_lt_abs (x y : ℝ) (hy : 0 < y) : -y < cfmod x y ∧ cfmod x y < y := by
  rcases le_or_lt 0 x with hx | hx
  · have h := cfmod_nonneg_lt x y hy hx
    exact ⟨by nlinarith [h.1], h.2⟩
  · have h := cfmod_nonpos_gt x y hy hx
    exact ⟨h.1, lt_of_le_of_lt h.2 hy⟩

theorem ANGLE_nonneg_lt (t : ℝ) (h : -(π * 2) ≤ t) :
    0 ≤ ANGLE t ∧ ANGLE t < π * 2 := by
  have h2 : (0:ℝ) < π * 2 := by positivity
  exact cfmod_nonneg_lt (t + π * 2) (π * 2) h2 (by linarith)

theorem position_abs_lt (f : ℝ) : -(π * 2) < position f ∧ position f < π * 2 := by
  have h2 : (0:ℝ) < π * 2 := by positivity
  exact cfmod_lt_abs (-f * (π * 2) + π * 2) (π * 2) h2

theorem rawTheta_mem (a f : ℝ) (c : Bool) (ha1 : -π ≤ a) (ha2 : a ≤ π) :
    0 ≤ rawTheta a (position f) c ∧ rawTheta a (position f) c < π * 2 := by
  cases c with
  | true =>
    constructor
    · simp [rawTheta]
    · simp only [rawTheta, if_true]
      positivity
  | false =>
    have hpos := position_abs_lt f
    have hA : 0 ≤ ANGLE a ∧ ANGLE a < π * 2 :=
      ANGLE_nonneg_lt a (by nlinarith [pi_pos])
    simp only [rawTheta, Bool.false_eq_true, if_false]
    exact ANGLE_nonneg_lt _ (by linarith [hA.1, hpos.2])

theorem pinTheta_spec (a pos : ℝ) (c : Bool) :
    pinTheta true a pos c =
      (if π < rawTheta a pos c then π * 2 - rawTheta a pos c
       else rawTheta a pos c) ∧
    pinTheta false a pos c = rawTheta a pos c := by
  constructor
  · simp [pinTheta]
  · simp [pinTheta]

theorem cfmod_eq_self (x y : ℝ) (hy : 0 < y) (h0 : 0 ≤ x) (h1 : x < y) :
    cfmod x y = x := by
  have hq0 : 0 ≤ x / y := div_nonneg h0 hy.le
  have hq1 : x / y < 1 := (div_lt_one hy).mpr h1
  have hfl : ⌊x / y⌋ = 0 := Int.floor_eq_zero_iff.mpr (Set.mem_Ico.mpr ⟨hq0, hq1⟩)
  simp [cfmod, itrunc, hq0, hfl]

theorem cfmod_self (y : ℝ) (hy : 0 < y) : cfmod y y = 0 := by
  have hy0 : y ≠ 0 := ne_of_gt hy
  have hq : y / y = 1 := div_self hy0
  simp [cfmod, itrunc, hq]

theorem ANGLE_zero : ANGLE 0 = 0 := by
  have h2 : (0:ℝ) < π * 2 := by positivity
  have harg : (0:ℝ) + π * 2 = π * 2 := by ring
  rw [ANGLE, harg, cfmod_self _ h2]

theorem position_19_36 : position (19 / 36) = 17 * π / 18 := by
  have h2 : (0:ℝ) < π * 2 := by positivity
  have harg : -(19 / 36 : ℝ) * (π * 2) + π * 2 = 17 * π / 18 := by ring
  rw [position, ANGLE, harg]
  exact cfmod_eq_self _ _ h2 (by positivity) (by nlinarith [pi_pos])

theorem rawTheta_example : rawTheta 0 (position (19 / 36)) false = 19 * π / 18 := by
  have h2 : (0:ℝ) < π * 2 := by positivity
  simp only [rawTheta, Bool.false_eq_true, if_false]
  rw [ANGLE_zero, position_19_36]
  have harg : (0:ℝ) - 17 * π / 18 + π * 2 = 19 * π / 18 := by ring
  rw [ANGLE, harg]
  exact cfmod_eq_self _ _ h2 (by positivity) (by nlinarith [pi_pos])

/-- C9: for every key (any `atan2` result `a ∈ [-π, π]`, or the centre
key) and every rotation phase, the computed raw angle lies in `[0, 2π)`;
with the symmetric option on, a raw angle `θ > π` is replaced by
`2π − θ` and otherwise left unchanged, and with symmetric off the angle
is unchanged; in particular a key at raw angle `190°` (`19π/18`) maps to
`170°` (`17π/18`) when symmetric is on.  (Modelled over the exact real
semantics of the floating-point expressions.) -/
theorem C9_pinwheel_angle (a f : ℝ) (c : Bool) (ha1 : -π ≤ a) (ha2 : a ≤ π) :
    (0 ≤ rawTheta a (position f) c ∧ rawTheta a (position f) c < π * 2) ∧
    (pinTheta true a (position f) c =
        (if π < rawTheta a (position f) c then π * 2 - rawTheta a (position f) c
         else rawTheta a (position f) c) ∧
      pinTheta false a (position f) c = rawTheta a (position f) c) ∧
    (rawTheta 0 (position (19 / 36)) false = 19 * π / 18 ∧
      pinTheta true 0 (position (19 / 36)) false = 17 * π / 18) := by
  refine ⟨rawTheta_mem a f c ha1 ha2, pinTheta_spec a (position f) c,
    rawTheta_example, ?_⟩
  rw [(pinTheta_spec 0 (position (19 / 36)) false).1, rawTheta_example,
    if_pos (by nlinarith [pi_pos])]
  ring

/-- C9 witness: the theorem instantiated at the `190°` example key. -/
theorem C9_pinwheel_angle_witness :
    (0 ≤ rawTheta 0 (position (19 / 36)) false ∧
      rawTheta 0 (position (19 / 36)) false < π * 2) ∧
    (pinTheta true 0 (position (19 / 36)) false =
        (if π < rawTheta 0 (position (19 / 36)) false then
          π * 2 - rawTheta 0 (position (19 / 36)) false
         else rawTheta 0 (position (19 / 36)) false) ∧
      pinTheta false 0 (position (19 / 36)) false =
        rawTheta 0 (position (19 / 36)) false) ∧
    (rawTheta 0 (position (19 / 36)) false = 19 * π / 18 ∧
      pinTheta true 0 (position (19 / 36)) false = 17 * π / 18) :=
  C9_pinwheel_angle 0 (19 / 36) false (neg_nonpos.mpr Real.pi_nonneg) Real.pi_nonneg

end Pinwheel

namespace Ckb

/-- C4 witness: the amended statement at a concrete table. -/
theorem C4_only_structural_lock_released_witness :
    (∃ body, quitTrace 2 exKbHigh = QEv.lockList :: (body ++ [QEv.unlockList])) ∧
    ∀ i, QEv.unlockDev i ∉ quitTrace 2 exKbHigh :=
  C4_only_structural_lock_released 2 exKbHigh

/-- C8 witness: three termination signals yield exactly one `quit` run
and two acknowledgements. -/
theorem C8_shutdown_once_witness :
    (sigRun 3 Handler.armed).2 =
      SEv.replaceHandlers :: SEv.runQuit :: SEv.exitProc ::
        List.replicate 2 SEv.ackSignal ∧
    List.count SEv.runQuit (sigRun 3 Handler.armed).2 = 1 :=
  C8_shutdown_once 2

end Ckb
